import Mathlib

/-!
# s3imageserver: request descriptor, cache store, origin client and dispatcher

A shallow embedding of `s3imageserver/image.go`, `s3imageserver/cache.go` and the
route closure of `s3imageserver/s3imageserver.go`.

Conventions of the embedding:

* Go strings are `String`; the byte-wise scans of the source (`filepath.Ext`,
  `strings.Split` on "/") only look for ASCII bytes, so they are written over the
  character list of the string.
* Go `int` values are `Int`; the only machine arithmetic that can overflow is the
  `time.Duration` product in `getFromCache`, which is wrapped to 64 bits.
* Everything the program reads from outside (file system, clock, network, the image
  library, `net/url`, `strconv.ParseFloat`, `to.Bool`, the iteration order of a Go map)
  is a field of `Env`, so every function is a total, executable function of its inputs.
* A call that would be a run-time panic in Go returns `Outcome.panic`.
* `go f(x)` is recorded in the trace as a spawn event carrying the arguments that
  the goroutine will see.  Writes to stdout and stderr are not recorded.
-/

set_option linter.dupNamespace false
set_option maxRecDepth 8000

namespace S3ImageServer

/-! ## Data model -/

/-- A Go byte slice. -/
abbrev Bytes := List Nat

/-- Modelled from the spec: the type `vips.ImageType` is declared in the image library,
which is not part of the source tree.  The spec calls it "one of a fixed enumerated set";
the three members the program names are constructors, every other value of the
underlying integer type is `other`. -/
inductive ImageType where
  | WEBP
  | JPEG
  | PNG
  | other (code : Nat)
  deriving DecidableEq, Repr

/-- The struct `Image` of `image.go`. -/
structure Image where
  Path : String
  FileName : String
  Bucket : String
  Crop : Bool
  Debug : Bool
  Height : Int
  Width : Int
  Image : Bytes
  CacheTime : Int
  CachePath : String
  ErrorImage : String
  ErrorResizeCrop : Bool
  OutputFormat : ImageType
  deriving DecidableEq, Repr

/-- The anonymous struct field `AWS` of `HandlerConfig`. -/
structure AWSConfig where
  AWSAccess : String
  AWSSecret : String
  BucketName : String
  FilePath : String
  deriving DecidableEq, Repr

/-- The struct `HandlerConfig` of `s3imageserver.go`.  A nil slice is the empty list and
a nil `*int` is `none`. -/
structure HandlerConfig where
  Name : String
  Prefix : String
  AWS : AWSConfig
  ErrorImage : String
  Allowed : List String
  OutputFormat : String
  CachePath : String
  CacheTime : Option Int
  deriving DecidableEq, Repr

/-- The part of `*http.Request` the program reads: the path of the request URL
(`r.URL.Path`) and its query (`r.URL.Query()`), as the list of key/value pairs in the
order they appear in the raw query. -/
structure Request where
  Path : String
  Query : List (String × String)
  deriving DecidableEq, Repr

/-- The method `url.Values.Get`: the first value stored under the key, or the empty string. -/
def Request.Get (r : Request) (key : String) : String :=
  match r.Query.find? (fun kv => kv.1 == key) with
  | some kv => kv.2
  | none => ""

/-- The struct `vips.Options` as far as `resizeCrop` fills it. -/
structure Options where
  Width : Int
  Height : Int
  Crop : Bool
  Extend : String
  Interpolator : String
  Gravity : String
  Quality : Nat
  Format : ImageType
  deriving DecidableEq, Repr

/-- What `http.DefaultClient.Do` hands back on a response: the status code and what
`ioutil.ReadAll(resp.Body)` will return (the bytes read and an optional error). -/
structure Response where
  StatusCode : Nat
  Body : Bytes × Option String
  deriving DecidableEq, Repr

/-- A `float64` as the program uses it.  The only operation applied to the result of
`to.Float64` is the conversion `int(..)`, so a finite value is held by its integer part
(the value truncated toward zero); NaN and the two infinities are `notFinite`. -/
inductive Float64 where
  | finite (intPart : Int)
  | notFinite
  deriving DecidableEq, Repr

/-- Everything outside the program. -/
structure Env where
  /-- The call `os.Stat(name)` followed by `time.Since(info.ModTime())`, in nanoseconds. -/
  stat : String → Except String Int
  /-- The call `os.Open(name)`: `none` when it succeeds. -/
  osOpen : String → Option String
  /-- The call `ioutil.ReadAll(f)` on the opened cache file. -/
  readAll : String → Bytes × Option String
  /-- The call `ioutil.ReadFile(name)`. -/
  readFile : String → Bytes × Option String
  /-- The call `http.DefaultClient.Do(req)` for the signed GET of the given URL. -/
  httpDo : String → String → String → Option Response × Option String
  /-- The call `vips.Resize(buf, options)`. -/
  resize : Bytes → Options → Except String Bytes
  /-- The call `strconv.ParseFloat(s, 64)`: `none` when it returns an error. -/
  parseFloat : String → Option Float64
  /-- The result of `int(f)` for a value that `int` cannot hold, which the Go
  specification leaves to the implementation. -/
  intOutOfRange : Float64 → Int
  /-- The method `(*url.URL).String` on the URL of a request. -/
  urlString : Request → String
  /-- The call `url.Parse(s)`: the `Path` of the parsed URL, or the error. -/
  urlParse : String → Except String String
  /-- The call `to.Bool(s)`. -/
  toBool : String → Bool
  /-- The order in which `range allowedMap` visits the entries of the map. -/
  mapOrder : List (ImageType × String)

/-- An observable action on the world outside the response writer. -/
inductive Event where
  | stat (name : String)
  | osOpen (name : String)
  | readAll (name : String)
  | goRemoveExpiredImage (name : String)
  | goWriteCache (name : String) (data : Bytes)
  | goWriteCachePanic
  | httpDo (url : String)
  | readFile (name : String)
  | resize (opts : Options)
  deriving DecidableEq, Repr

/-- The calls made on an `http.ResponseWriter`: the header map, the status codes passed to
`WriteHeader` and the byte slices passed to `Write`, each in call order. -/
structure ResponseWriter where
  header : List (String × String)
  status : List Nat
  body : List Bytes
  deriving DecidableEq, Repr

/-- The state a request threads through the pipeline. -/
structure State where
  image : Image
  w : ResponseWriter
  trace : List Event
  deriving DecidableEq, Repr

/-- A computation that either returns or panics. -/
inductive Outcome (α : Type) where
  | ok (a : α)
  | panic
  deriving DecidableEq, Repr

/-! ## Library functions the source calls -/

/-- The character of a decimal digit. -/
def digitChar (d : Nat) : Char := Char.ofNat (48 + d)

/-- Decimal digits of a natural number, most significant first; the first argument bounds
the number of digits. -/
def formatNatAux : Nat → Nat → List Char → List Char
  | 0, _, acc => acc
  | fuel + 1, n, acc =>
    if n < 10 then digitChar n :: acc
    else formatNatAux fuel (n / 10) (digitChar (n % 10) :: acc)

/-- Decimal text of a natural number. -/
def formatNat (n : Nat) : List Char := formatNatAux (n + 1) n []

/-- The verb `%v` of `fmt` on an `int`, which is `strconv.Itoa`. -/
def formatInt (z : Int) : String :=
  if z < 0 then ⟨'-' :: formatNat z.natAbs⟩ else ⟨formatNat z.natAbs⟩

/-- The verb `%v` of `fmt` on a `bool`. -/
def formatBool (b : Bool) : String := if b then "true" else "false"

/-- The loop of `filepath.Ext`: scan from index `k - 1` down to the last separator. -/
def extLoop (path : List Char) : Nat → List Char
  | 0 => []
  | k + 1 =>
    if path.getD k ' ' = '/' then []
    else if path.getD k ' ' = '.' then path.drop k
    else extLoop path k

/-- The function `filepath.Ext` (with the Unix separator). -/
def Ext (path : String) : String := ⟨extLoop path.data path.data.length⟩

/-- The function `strings.Split(s, "/")` on the characters of `s`. -/
def splitSlash : List Char → List (List Char)
  | [] => [[]]
  | c :: cs =>
    if c = '/' then [] :: splitSlash cs
    else
      match splitSlash cs with
      | [] => [[c]]
      | seg :: rest => (c :: seg) :: rest

/-- Go's `int64(x)` of an unbounded integer: reduction to the signed 64-bit range. -/
def wrapInt64 (z : Int) : Int := (z + 2 ^ 63) % 2 ^ 64 - 2 ^ 63

/-- The constant `time.Second`, in nanoseconds. -/
def Second : Int := 1000000000

/-- The method `http.Header.Set`. -/
def headerSet (h : List (String × String)) (k v : String) : List (String × String) :=
  (h.filter (fun kv => kv.1 != k)) ++ [(k, v)]

/-- The method `http.Header.Get`. -/
def headerGet (h : List (String × String)) (k : String) : String :=
  match h.find? (fun kv => kv.1 == k) with
  | some kv => kv.2
  | none => ""

/-- Modelled from the spec: the function `to.Float64` of `github.com/gosexy/to`, which
is not part of the source tree.  The spec says "parsed as numeric; unparsable or absent
→ 0": the value `strconv.ParseFloat` returns, and 0 when it returns an error. -/
def toFloat64 (env : Env) (s : String) : Float64 :=
  match env.parseFloat s with
  | some f => f
  | none => Float64.finite 0

/-- The conversion `int(f)` of a `float64`: the integer part when a signed 64-bit integer
can hold it, the implementation-specific result otherwise. -/
def floatToInt (env : Env) (f : Float64) : Int :=
  match f with
  | .finite t => if -(2 ^ 63) ≤ t ∧ t < 2 ^ 63 then t else env.intOutOfRange f
  | .notFinite => env.intOutOfRange f

/-! ## image.go -/

/-- The variable `allowedTypes`. -/
def allowedTypes : List String := [".png", ".jpg", ".jpeg", ".gif", ".webp"]

/-- The variable `allowedMap`, as its list of entries. -/
def allowedMap : List (ImageType × String) :=
  [(ImageType.WEBP, ".webp"), (ImageType.JPEG, ".jpg"), (ImageType.PNG, ".png")]

/-- The index expression `allowedMap[t]`: the zero value when the key is missing. -/
def allowedMapAt (t : ImageType) : String :=
  match allowedMap.find? (fun vk => vk.1 = t) with
  | some vk => vk.2
  | none => ""

/-- The method `isFormatSupported`. -/
def isFormatSupported (env : Env) (i : Image) (format : String) : Image :=
  if format ≠ "" then
    env.mapOrder.foldl
      (fun img vk => if vk.2 = "." ++ format then { img with OutputFormat := vk.1 } else img) i
  else i

/-- The function `NewImage`: the image and the error (`none` is nil). -/
def NewImage (env : Env) (r : Request) (config : HandlerConfig) (fileName : String) :
    Image × Option String :=
  let maxDimension : Int := 3064
  let height := floatToInt env (toFloat64 env (r.Get "h"))
  let width := floatToInt env (toFloat64 env (r.Get "w"))
  let height := if height > maxDimension then maxDimension else height
  let width := if width > maxDimension then maxDimension else width
  let crop := if r.Get "c" ≠ "" then env.toBool (r.Get "c") else true
  let image : Image :=
    { Path := config.AWS.FilePath
      FileName := ""
      Bucket := config.AWS.BucketName
      Crop := crop
      Debug := false
      Height := height
      Width := width
      Image := []
      CacheTime := 604800
      CachePath := config.CachePath
      ErrorImage := ""
      ErrorResizeCrop := true
      OutputFormat := ImageType.WEBP }
  let image :=
    match config.CacheTime with
    | some t => { image with CacheTime := t }
    | none => image
  let image := isFormatSupported env image (r.Get "f")
  let acceptedTypes := if config.Allowed.length > 0 then config.Allowed else allowedTypes
  let image := acceptedTypes.foldl
    (fun img allowed => if allowed = Ext fileName then { img with FileName := fileName } else img)
    image
  let err : Option String := none
  let err := if image.FileName = "" then some "File name cannot be an empty string" else err
  let err := if image.Bucket = "" then some "Bucket cannot be an empty string" else err
  (image, err)

/-- The method `write`. -/
def write (s : State) : State :=
  { s with
    w := { s.w with
      header := headerSet s.w.header "Content-Length" (formatInt s.image.Image.length)
      body := s.w.body ++ [s.image.Image] } }

/-- The method `WriteHeader` of the response writer. -/
def writeHeader (s : State) (code : Nat) : State :=
  { s with w := { s.w with status := s.w.status ++ [code] } }

/-- The method `resizeCrop`. -/
def resizeCrop (env : Env) (s : State) : State :=
  let options : Options :=
    { Width := s.image.Width
      Height := s.image.Height
      Crop := s.image.Crop
      Extend := "EXTEND_WHITE"
      Interpolator := "BICUBIC"
      Gravity := "CENTRE"
      Quality := 75
      Format := s.image.OutputFormat }
  let s := { s with trace := s.trace ++ [Event.resize options] }
  match env.resize s.image.Image options with
  | .error _ => s
  | .ok buf => { s with image := { s.image with Image := buf } }

/-- The method `getErrorImage`. -/
def getErrorImage (env : Env) (s : State) : State × Option String :=
  if s.image.ErrorImage ≠ "" then
    let res := env.readFile s.image.ErrorImage
    let s := { s with
      image := { s.image with Image := res.1 }
      trace := s.trace ++ [Event.readFile s.image.ErrorImage] }
    match res.2 with
    | some e => (s, some e)
    | none =>
      let s := if s.image.ErrorResizeCrop then resizeCrop env s else s
      (s, none)
  else (s, some "Error image not specified")

/-- The method `getImageFromS3`.  `http.NewRequest` fails exactly when `url.Parse`
rejects the URL; its error is discarded and `req.Header.Set` then dereferences the nil
request.  When `Do` returns an error the first condition is false without looking at
`resp`, and the `else if` then reads `resp.StatusCode`. -/
def getImageFromS3 (env : Env) (s : State) (AWSAccess AWSSecret : String) :
    Outcome (State × Option String) :=
  let url := "https://" ++ s.image.Bucket ++ ".s3.amazonaws.com/" ++ s.image.Path ++
    s.image.FileName
  match env.urlParse url with
  | .error _ => .panic
  | .ok _ =>
    let res := env.httpDo url AWSAccess AWSSecret
    let s := { s with trace := s.trace ++ [Event.httpDo url] }
    match res.2, res.1 with
    | none, none => .panic
    | none, some resp =>
      if resp.StatusCode = 200 then
        .ok ({ s with image := { s.image with Image := resp.Body.1 } }, none)
      else .ok (s, some "Error while making request")
    | some _, none => .panic
    | some e, some resp =>
      if resp.StatusCode ≠ 200 then .ok (s, some "Error while making request")
      else .ok (s, some e)

/-! ## cache.go -/

/-- The local variable `pathPrefix` of `getCachedFileName`: element 1 of `u.Path` split
at "/", when there is one; `path` is `u.Path`. -/
def pathPrefix (path : String) : String :=
  let h := splitSlash path.data
  if h.length > 1 then ⟨h.getD 1 []⟩ else ""

/-- The local variable `fileNameOnly` of `getCachedFileName`: the slice
`FileName[0 : len(FileName) - len(filepath.Ext(FileName))]`. -/
def fileNameOnly (i : Image) : String :=
  ⟨i.FileName.data.take (i.FileName.data.length - (Ext i.FileName).data.length)⟩

/-- The method `getCachedFileName`: it parses `r.URL.String()` again, panics when that
fails, and takes the route prefix from the path of the URL parsed again. -/
def getCachedFileName (env : Env) (i : Image) (r : Request) : Outcome String :=
  match env.urlParse (env.urlString r) with
  | .error _ => .panic
  | .ok path =>
    .ok (i.CachePath ++ "/" ++ pathPrefix path ++ "_w" ++ formatInt i.Width ++ "_h" ++
      formatInt i.Height ++ "_c" ++ formatBool i.Crop ++ "_" ++ fileNameOnly i ++
      allowedMapAt i.OutputFormat)

/-- The method `getFromCache`. -/
def getFromCache (env : Env) (s : State) (r : Request) : Outcome (State × Option String) :=
  match getCachedFileName env s.image r with
  | .panic => .panic
  | .ok newFileName =>
    let s := { s with trace := s.trace ++ [Event.stat newFileName] }
    match env.stat newFileName with
    | .error e => .ok (s, some e)
    | .ok age =>
      if wrapInt64 (wrapInt64 s.image.CacheTime * Second) > age then
        let s := { s with trace := s.trace ++ [Event.osOpen newFileName] }
        match env.osOpen newFileName with
        | some e => .ok (s, some e)
        | none =>
          let s := { s with trace := s.trace ++ [Event.readAll newFileName] }
          match (env.readAll newFileName).2 with
          | some e => .ok (s, some e)
          | none =>
            .ok ({ s with image := { s.image with Image := (env.readAll newFileName).1 } }, none)
      else
        .ok ({ s with trace := s.trace ++ [Event.goRemoveExpiredImage newFileName] },
          some "The file has expired")

/-- The statement `go i.writeCache(r)`: the goroutine computes the cache file name, which
may panic, and calls `ioutil.WriteFile` on it with the image bytes. -/
def goWriteCache (env : Env) (s : State) (r : Request) : State :=
  match getCachedFileName env s.image r with
  | .panic => { s with trace := s.trace ++ [Event.goWriteCachePanic] }
  | .ok name => { s with trace := s.trace ++ [Event.goWriteCache name s.image.Image] }

/-! ## The pipeline and the route closure -/

/-- The second half of `getImage`: what follows the cache lookup, given its result. -/
def afterCache (env : Env) (res : State × Option String) (r : Request)
    (AWSAccess AWSSecret : String) : Outcome State :=
  match res.2 with
  | none => .ok (write res.1)
  | some _ =>
    match getImageFromS3 env res.1 AWSAccess AWSSecret with
    | .panic => .panic
    | .ok (s, some _) => .ok (write (writeHeader (getErrorImage env s).1 404))
    | .ok (s, none) => .ok (write (goWriteCache env (resizeCrop env s) r))

/-- The method `getImage`. -/
def getImage (env : Env) (s : State) (r : Request) (AWSAccess AWSSecret : String) :
    Outcome State :=
  if s.image.CacheTime > -1 then
    match getFromCache env s r with
    | .panic => .panic
    | .ok res => afterCache env res r AWSAccess AWSSecret
  else afterCache env (s, some "Caching disabled") r AWSAccess AWSSecret

/-- The closure registered for a handler in `Run`; `param` is the route parameter and
`verify` the optional token predicate. -/
def handle (env : Env) (verify : Option (String → Bool)) (handler : HandlerConfig)
    (r : Request) (param : String) : Outcome State :=
  let res := NewImage env r handler param
  let i := { res.1 with ErrorImage := handler.ErrorImage }
  let s : State := { image := i, w := { header := [], status := [], body := [] }, trace := [] }
  let verified : Bool :=
    match verify with
    | none => true
    | some v => v (r.Get "t")
  if res.2 = none ∧ verified = true then
    match getImage env s r handler.AWS.AWSAccess handler.AWS.AWSSecret with
    | .panic => .panic
    | .ok s => .ok (write s)
  else
    let s := (getErrorImage env s).1
    let s := writeHeader s 404
    let s := { s with w := { s.w with
      header := headerSet s.w.header "Content-Length" (formatInt s.image.Image.length) } }
    .ok (write s)

/-! ## Definitions that follow the words of the specification -/

/-- The first path segment of an absolute request path: what stands between the leading
slash and the next slash (or the end). -/
def firstPathSegment (path : String) : String :=
  ⟨(path.data.drop 1).takeWhile (fun c => c ≠ '/')⟩

/-- A file name with its final extension removed: when the characters after the last
slash contain a dot, the name up to (not including) the last dot; otherwise the whole
name. -/
def baseName (name : String) : String :=
  let tail := name.data.reverse.takeWhile (fun c => c ≠ '/' ∧ c ≠ '.')
  if (name.data.reverse.drop tail.length).head? = some '.' then
    ⟨name.data.take (name.data.length - tail.length - 1)⟩
  else name

/-- Reading decimal text back: the value of a list of digit characters. -/
def parseNat (l : List Char) : Nat :=
  l.foldl (fun a c => 10 * a + (c.toNat - 48)) 0

/-- The extension of an output format as the specification lists it. -/
def formatExtension : ImageType → String
  | .WEBP => ".webp"
  | .JPEG => ".jpg"
  | .PNG => ".png"
  | .other _ => ""

/-- The allow-list in force for a handler. -/
def effectiveAllowed (config : HandlerConfig) : List String :=
  if config.Allowed ≠ [] then config.Allowed else [".png", ".jpg", ".jpeg", ".gif", ".webp"]

/-- The output format the specification assigns to a value of the `f` parameter. -/
def formatOfParam (f : String) : ImageType :=
  if f = "webp" then .WEBP
  else if f = "jpg" then .JPEG
  else if f = "png" then .PNG
  else .WEBP

/-! ## Concrete inputs -/

/-- The raw query of a request of this section: the pairs written `k=v` and joined
with "&". -/
def rawQueryOf : List (String × String) → String
  | [] => ""
  | [kv] => kv.1 ++ "=" ++ kv.2
  | kv :: rest => kv.1 ++ "=" ++ kv.2 ++ "&" ++ rawQueryOf rest

/-- What `(*url.URL).String` returns for the URL of a request without scheme, host or
fragment, whose path starts with "/" and whose path and query need no escaping: the path,
followed by "?" and the raw query when there is one. -/
def requestURLString (r : Request) : String :=
  if r.Query = [] then r.Path else r.Path ++ "?" ++ rawQueryOf r.Query

/-- The function `getScheme` of `net/url`: the scheme and what follows its colon. -/
def getScheme (cs : List Char) : Except String (List Char × List Char) :=
  let pre := cs.takeWhile
    (fun c => c.isAlpha || c.isDigit || c == '+' || c == '-' || c == '.')
  match cs.drop pre.length with
  | ':' :: rest =>
    match pre with
    | [] => .error "missing protocol scheme"
    | c :: _ => if c.isAlpha then .ok (pre, rest) else .ok ([], cs)
  | _ => .ok ([], cs)

/-- The value of a hexadecimal digit. -/
def hexVal (c : Char) : Option Nat :=
  if c.isDigit then some (c.toNat - 48)
  else if 'a' ≤ c ∧ c ≤ 'f' then some (c.toNat - 87)
  else if 'A' ≤ c ∧ c ≤ 'F' then some (c.toNat - 55)
  else none

/-- The function `unescape` of `net/url` on a path: a percent sign must be followed by
two hexadecimal digits, and the three characters stand for the byte they spell. -/
def unescapePath : List Char → Except String (List Char)
  | [] => .ok []
  | '%' :: a :: b :: rest =>
    match hexVal a, hexVal b, unescapePath rest with
    | some x, some y, .ok t => .ok (Char.ofNat (16 * x + y) :: t)
    | some _, some _, .error e => .error e
    | _, _, _ => .error "invalid URL escape"
  | '%' :: _ => .error "invalid URL escape"
  | c :: rest =>
    match unescapePath rest with
    | .ok t => .ok (c :: t)
    | .error e => .error e

/-- A fragment of `url.Parse`, giving the `Path` of the result for a text without
fragment, user information, port or control character, and without percent escape other
than of ASCII characters in the path: the scheme is split off, the query is cut at the
first "?", an opaque URL has an empty path, a leading "//" (but not "///" without a
scheme) introduces the authority, which ends at the next "/", a host that opens a bracket
without closing it is an error, and the path is unescaped. -/
def parseURLPath (s : String) : Except String String :=
  match getScheme s.data with
  | .error e => .error e
  | .ok (scheme, afterScheme) =>
    let rest := afterScheme.takeWhile (fun c => c ≠ '?')
    if rest.head? ≠ some '/' ∧ scheme ≠ [] then .ok ""
    else if rest.head? ≠ some '/' ∧ ':' ∈ rest.takeWhile (fun c => c ≠ '/') then
      .error "first path segment in URL cannot contain colon"
    else if (scheme ≠ [] ∨ ("///".data.isPrefixOf rest) = false) ∧
        ("//".data.isPrefixOf rest) = true then
      let authority := (rest.drop 2).takeWhile (fun c => c ≠ '/')
      if authority.head? = some '[' ∧ ']' ∉ authority then .error "missing ']' in host"
      else
        match unescapePath ((rest.drop 2).dropWhile (fun c => c ≠ '/')) with
        | .ok path => .ok ⟨path⟩
        | .error e => .error e
    else
      match unescapePath rest with
      | .ok path => .ok ⟨path⟩
      | .error e => .error e

/-- Number of binary digits of a natural number; the first argument bounds the count. -/
def bitLengthAux : Nat → Nat → Nat
  | 0, _ => 0
  | fuel + 1, n => if n = 0 then 0 else bitLengthAux fuel (n / 2) + 1

/-- The `float64` nearest to a natural number (ties to even), as a natural number: the
number is kept when it has at most 53 binary digits and is rounded to 53 digits
otherwise. -/
def roundToFloat64 (n : Nat) : Nat :=
  let k := bitLengthAux n n - 53
  let q := n / 2 ^ k
  let rem := n % 2 ^ k
  if 2 * rem > 2 ^ k ∨ (2 * rem = 2 ^ k ∧ k ≠ 0 ∧ q % 2 = 1) then (q + 1) * 2 ^ k
  else q * 2 ^ k

/-- A fragment of `strconv.ParseFloat`: a text made of an optional minus sign, decimal
digits and an optional exponent `e` with decimal digits is read as the nearest `float64`
(the value is taken to be in the range of `float64`), and the empty text is a syntax
error.  The other texts that `ParseFloat` reads (a fraction, a plus sign, a hexadecimal
mantissa, `inf`, `nan`) are outside the fragment, which answers `none` for them. -/
def parseFloatLiteral (s : String) : Option Float64 :=
  let neg := s.data.head? = some '-'
  let body := if neg then s.data.drop 1 else s.data
  let mant := body.takeWhile Char.isDigit
  let exp : Option Nat :=
    match body.drop mant.length with
    | [] => some 0
    | 'e' :: ds => if ds ≠ [] ∧ ds.all Char.isDigit = true then some (parseNat ds) else none
    | _ => none
  match exp with
  | none => none
  | some e =>
    if mant = [] then none
    else if neg then some (Float64.finite (-(roundToFloat64 (parseNat mant * 10 ^ e) : Int)))
    else some (Float64.finite (roundToFloat64 (parseNat mant * 10 ^ e)))

/-- An environment with an empty cache directory, an unreachable origin, a resize that
always fails, the decimal literals and the URLs described above, the result 0x8000000000000000
that an amd64 processor gives for a `float64` that `int` cannot hold, and the entries of
`allowedMap` visited in the order they are written. -/
def emptyEnv : Env :=
  { stat := fun _ => .error "no such file"
    osOpen := fun _ => some "no such file"
    readAll := fun _ => ([], some "no such file")
    readFile := fun _ => ([], some "no such file")
    httpDo := fun _ _ _ => (none, some "dial tcp: no route to host")
    resize := fun _ _ => .error "unsupported"
    parseFloat := parseFloatLiteral
    intOutOfRange := fun _ => -(2 ^ 63)
    urlString := requestURLString
    urlParse := parseURLPath
    toBool := fun s => s = "true" ∨ s = "1"
    mapOrder := allowedMap }

/-- The request of scenario A: `/photos/cat.jpg?w=100&h=100&c=true`. -/
def catRequest : Request :=
  { Path := "/photos/cat.jpg", Query := [("w", "100"), ("h", "100"), ("c", "true")] }

/-- A handler configuration for the route `photos`. -/
def photosConfig : HandlerConfig :=
  { Name := "photos"
    Prefix := ""
    AWS := { AWSAccess := "AK", AWSSecret := "SK", BucketName := "bucket", FilePath := "img/" }
    ErrorImage := ""
    Allowed := []
    OutputFormat := ""
    CachePath := "/var/cache"
    CacheTime := none }

/-- The image of scenario A. -/
def catImage : Image := (NewImage emptyEnv catRequest photosConfig "cat.jpg").1

/-- The cache file name of scenario A. -/
def catCacheName : String := "/var/cache/photos_w100_h100_ctrue_cat.webp"

/-- An environment in which every cache file exists with the given age in nanoseconds
and holds the bytes 1, 2, 3, and in which the origin answers 200 with the bytes 9, 9. -/
def agedEnv (age : Int) : Env :=
  { emptyEnv with
    stat := fun _ => .ok age
    osOpen := fun _ => none
    readAll := fun _ => ([1, 2, 3], none)
    httpDo := fun _ _ _ => (some { StatusCode := 200, Body := ([9, 9], none) }, none) }

/-- An environment with an empty cache directory, an origin that answers 404 and a
fallback image file that holds the bytes 7, 7. -/
def fallbackEnv : Env :=
  { emptyEnv with
    httpDo := fun _ _ _ => (some { StatusCode := 404, Body := ([], none) }, none)
    readFile := fun _ => ([7, 7], none) }

/-- The state in which the route closure calls `getImage` for the given image. -/
def startState (i : Image) : State :=
  { image := i, w := { header := [], status := [], body := [] }, trace := [] }

/-! ## Lemmas on the two loops of `NewImage` -/

theorem formatLoop_fields (t : String) (l : List (ImageType × String)) (i : Image) :
    (l.foldl (fun img vk => if vk.2 = t then { img with OutputFormat := vk.1 } else img)
        i).FileName = i.FileName ∧
    (l.foldl (fun img vk => if vk.2 = t then { img with OutputFormat := vk.1 } else img)
        i).Height = i.Height ∧
    (l.foldl (fun img vk => if vk.2 = t then { img with OutputFormat := vk.1 } else img)
        i).Width = i.Width ∧
    (l.foldl (fun img vk => if vk.2 = t then { img with OutputFormat := vk.1 } else img)
        i).Bucket = i.Bucket := by
  induction l generalizing i with
  | nil => simp
  | cons x xs ih =>
    simp only [List.foldl_cons]
    by_cases hx : x.2 = t
    · rw [if_pos hx]
      exact ih _
    · rw [if_neg hx]
      exact ih _

theorem isFormatSupported_fields (env : Env) (i : Image) (f : String) :
    (isFormatSupported env i f).FileName = i.FileName ∧
    (isFormatSupported env i f).Height = i.Height ∧
    (isFormatSupported env i f).Width = i.Width ∧
    (isFormatSupported env i f).Bucket = i.Bucket := by
  unfold isFormatSupported
  by_cases hf : f ≠ ""
  · rw [if_pos hf]
    exact formatLoop_fields _ _ _
  · rw [if_neg hf]
    simp

theorem nameLoop_fields (e fileName : String) (l : List String) (i : Image) :
    (l.foldl (fun img allowed => if allowed = e then { img with FileName := fileName } else img)
        i).Height = i.Height ∧
    (l.foldl (fun img allowed => if allowed = e then { img with FileName := fileName } else img)
        i).Width = i.Width ∧
    (l.foldl (fun img allowed => if allowed = e then { img with FileName := fileName } else img)
        i).OutputFormat = i.OutputFormat ∧
    (l.foldl (fun img allowed => if allowed = e then { img with FileName := fileName } else img)
        i).Bucket = i.Bucket := by
  induction l generalizing i with
  | nil => simp
  | cons x xs ih =>
    simp only [List.foldl_cons]
    by_cases hx : x = e
    · rw [if_pos hx]
      exact ih _
    · rw [if_neg hx]
      exact ih _

theorem nameLoop_not_mem (e fileName : String) (l : List String) (i : Image) (h : e ∉ l) :
    (l.foldl (fun img allowed => if allowed = e then { img with FileName := fileName } else img)
        i).FileName = i.FileName := by
  induction l generalizing i with
  | nil => simp
  | cons x xs ih =>
    simp only [List.foldl_cons]
    have hx : ¬ x = e := fun hxe => h (by simp [hxe])
    rw [if_neg hx]
    exact ih _ (fun hm => h (List.mem_cons_of_mem _ hm))

theorem formatLoop_unique (t : String) (v : ImageType) (l : List (ImageType × String))
    (i : Image) (huniq : ∀ vk ∈ l, vk.2 = t → vk.1 = v)
    (hex : i.OutputFormat = v ∨ ∃ vk ∈ l, vk.2 = t) :
    (l.foldl (fun img vk => if vk.2 = t then { img with OutputFormat := vk.1 } else img)
        i).OutputFormat = v := by
  induction l generalizing i with
  | nil =>
    rcases hex with h | ⟨vk, hvk, _⟩
    · simpa using h
    · simp at hvk
  | cons x xs ih =>
    simp only [List.foldl_cons]
    have hu : ∀ vk ∈ xs, vk.2 = t → vk.1 = v :=
      fun vk hvk => huniq vk (List.mem_cons_of_mem _ hvk)
    by_cases hx : x.2 = t
    · rw [if_pos hx]
      exact ih _ hu (Or.inl (huniq x (by simp) hx))
    · rw [if_neg hx]
      refine ih _ hu ?_
      rcases hex with h | ⟨vk, hvk, hvt⟩
      · exact Or.inl h
      · rcases List.mem_cons.1 hvk with rfl | hin
        · exact absurd hvt hx
        · exact Or.inr ⟨vk, hin, hvt⟩

theorem formatLoop_none (t : String) (l : List (ImageType × String)) (i : Image)
    (hno : ∀ vk ∈ l, vk.2 ≠ t) :
    (l.foldl (fun img vk => if vk.2 = t then { img with OutputFormat := vk.1 } else img)
        i).OutputFormat = i.OutputFormat :=
  formatLoop_unique t i.OutputFormat l i (fun vk hvk hvt => absurd hvt (hno vk hvk)) (Or.inl rfl)

theorem dot_append_inj (f g : String) (h : "." ++ f = "." ++ g) : f = g := by
  have hd := congrArg String.data h
  simp only [String.data_append] at hd
  exact String.ext (List.append_cancel_left hd)

/-- The height, width and bucket of the image `NewImage` returns. -/
theorem NewImage_fields (env : Env) (r : Request) (config : HandlerConfig) (fileName : String) :
    (NewImage env r config fileName).1.Height =
      (if floatToInt env (toFloat64 env (r.Get "h")) > 3064 then 3064
        else floatToInt env (toFloat64 env (r.Get "h"))) ∧
    (NewImage env r config fileName).1.Width =
      (if floatToInt env (toFloat64 env (r.Get "w")) > 3064 then 3064
        else floatToInt env (toFloat64 env (r.Get "w"))) ∧
    (NewImage env r config fileName).1.Bucket = config.AWS.BucketName := by
  unfold NewImage
  simp only []
  refine ⟨?_, ?_, ?_⟩
  · rw [(nameLoop_fields _ _ _ _).1, (isFormatSupported_fields _ _ _).2.1]
    cases config.CacheTime <;> rfl
  · rw [(nameLoop_fields _ _ _ _).2.1, (isFormatSupported_fields _ _ _).2.2.1]
    cases config.CacheTime <;> rfl
  · rw [(nameLoop_fields _ _ _ _).2.2.2, (isFormatSupported_fields _ _ _).2.2.2]
    cases config.CacheTime <;> rfl

/-! ## Decimal text -/

theorem digitChar_toNat (d : Nat) (h : d < 10) : (digitChar d).toNat - 48 = d := by
  interval_cases d <;> rfl

theorem digitChar_ne_sep (d : Nat) (h : d < 10) : digitChar d ≠ '_' ∧ digitChar d ≠ '-' := by
  interval_cases d <;> exact ⟨by decide, by decide⟩

theorem formatNatAux_acc (fuel n : Nat) (acc : List Char) :
    formatNatAux fuel n acc = formatNatAux fuel n [] ++ acc := by
  induction fuel generalizing n acc with
  | zero => simp [formatNatAux]
  | succ k ih =>
    unfold formatNatAux
    by_cases h : n < 10
    · simp [h]
    · simp only [if_neg h]
      rw [ih (n / 10) (digitChar (n % 10) :: acc), ih (n / 10) [digitChar (n % 10)]]
      simp

theorem parseNat_snoc (l : List Char) (c : Char) :
    parseNat (l ++ [c]) = 10 * parseNat l + (c.toNat - 48) := by
  simp [parseNat, List.foldl_append]

theorem parseNat_formatNatAux (fuel n : Nat) (h : n < fuel) :
    parseNat (formatNatAux fuel n []) = n := by
  induction fuel generalizing n with
  | zero => omega
  | succ k ih =>
    unfold formatNatAux
    by_cases h10 : n < 10
    · simp [h10, parseNat, digitChar_toNat n h10]
    · simp only [if_neg h10]
      rw [formatNatAux_acc, parseNat_snoc, ih (n / 10) (by omega),
        digitChar_toNat (n % 10) (by omega)]
      omega

theorem parseNat_formatNat (n : Nat) : parseNat (formatNat n) = n :=
  parseNat_formatNatAux (n + 1) n (by omega)

theorem formatNatAux_digits (fuel n : Nat) (acc : List Char) (c : Char)
    (hc : c ∈ formatNatAux fuel n acc) : c ∈ acc ∨ ∃ d, d < 10 ∧ c = digitChar d := by
  induction fuel generalizing n acc with
  | zero => exact Or.inl (by simpa [formatNatAux] using hc)
  | succ k ih =>
    unfold formatNatAux at hc
    by_cases h10 : n < 10
    · simp only [if_pos h10, List.mem_cons] at hc
      rcases hc with rfl | hc
      · exact Or.inr ⟨n, h10, rfl⟩
      · exact Or.inl hc
    · simp only [if_neg h10] at hc
      rcases ih _ _ hc with hm | hd
      · rcases List.mem_cons.1 hm with rfl | hm
        · exact Or.inr ⟨n % 10, by omega, rfl⟩
        · exact Or.inl hm
      · exact Or.inr hd

theorem formatNat_digits (n : Nat) (c : Char) (hc : c ∈ formatNat n) :
    c ≠ '_' ∧ c ≠ '-' := by
  rcases formatNatAux_digits _ _ _ _ hc with hm | ⟨d, hd, rfl⟩
  · simp at hm
  · exact digitChar_ne_sep d hd

theorem formatInt_no_sep (z : Int) : '_' ∉ (formatInt z).data := by
  unfold formatInt
  intro hmem
  by_cases hz : z < 0
  · simp only [if_pos hz, List.mem_cons] at hmem
    rcases hmem with h | h
    · exact absurd h (by decide)
    · exact (formatNat_digits _ _ h).1 rfl
  · simp only [if_neg hz] at hmem
    exact (formatNat_digits _ _ hmem).1 rfl

theorem formatInt_injective (a b : Int) (h : formatInt a = formatInt b) : a = b := by
  unfold formatInt at h
  by_cases ha : a < 0 <;> by_cases hb : b < 0
  · rw [if_pos ha, if_pos hb] at h
    have hd : '-' :: formatNat a.natAbs = '-' :: formatNat b.natAbs := congrArg String.data h
    have := congrArg parseNat (List.tail_eq_of_cons_eq hd)
    rw [parseNat_formatNat, parseNat_formatNat] at this
    omega
  · rw [if_pos ha, if_neg hb] at h
    have hd : '-' :: formatNat a.natAbs = formatNat b.natAbs := congrArg String.data h
    have hm : '-' ∈ formatNat b.natAbs := by rw [← hd]; simp
    exact absurd rfl (formatNat_digits _ _ hm).2
  · rw [if_neg ha, if_pos hb] at h
    have hd : formatNat a.natAbs = '-' :: formatNat b.natAbs := congrArg String.data h
    have hm : '-' ∈ formatNat a.natAbs := by rw [hd]; simp
    exact absurd rfl (formatNat_digits _ _ hm).2
  · rw [if_neg ha, if_neg hb] at h
    have hd : formatNat a.natAbs = formatNat b.natAbs := congrArg String.data h
    have := congrArg parseNat hd
    rw [parseNat_formatNat, parseNat_formatNat] at this
    omega

theorem formatBool_no_sep (b : Bool) : '_' ∉ (formatBool b).data := by
  cases b <;> decide

theorem formatBool_injective (a b : Bool) (h : formatBool a = formatBool b) : a = b := by
  cases a <;> cases b <;> first | rfl | exact absurd h (by decide)

/-! ## Lists cut at a separator -/

theorem append_sep_inj (sep : Char) (a b x y : List Char) (ha : sep ∉ a) (hb : sep ∉ b)
    (h : a ++ sep :: x = b ++ sep :: y) : a = b ∧ x = y := by
  induction a generalizing b with
  | nil =>
    cases b with
    | nil => simpa using h
    | cons c cs =>
      simp only [List.nil_append, List.cons_append, List.cons.injEq] at h
      exact absurd (by simp [h.1]) hb
  | cons c cs ih =>
    cases b with
    | nil =>
      simp only [List.nil_append, List.cons_append, List.cons.injEq] at h
      exact absurd (by simp [h.1]) ha
    | cons d ds =>
      simp only [List.cons_append, List.cons.injEq] at h
      have := ih ds (fun hm => ha (List.mem_cons_of_mem _ hm))
        (fun hm => hb (List.mem_cons_of_mem _ hm)) h.2
      exact ⟨by rw [h.1, this.1], this.2⟩



/-! ## `filepath.Ext` and `strings.Split` -/

/-- The scan of `extLoop` over the reversed prefix `rs`, with `suf` the part of the path
already passed. -/
theorem extLoop_reverse (rs suf : List Char) :
    extLoop (rs.reverse ++ suf) rs.length =
      if (rs.drop (rs.takeWhile (fun c => c ≠ '/' ∧ c ≠ '.')).length).head? = some '.' then
        '.' :: ((rs.takeWhile (fun c => c ≠ '/' ∧ c ≠ '.')).reverse ++ suf)
      else [] := by
  induction rs generalizing suf with
  | nil => simp [extLoop]
  | cons c rs ih =>
    have hget : (((c :: rs).reverse ++ suf).getD rs.length ' ') = c := by
      have hrw : (c :: rs).reverse ++ suf = rs.reverse ++ (c :: suf) := by simp
      rw [hrw, List.getD_eq_getElem?_getD,
        List.getElem?_append_right (by simp : rs.reverse.length ≤ rs.length)]
      simp
    have hdrop : ((c :: rs).reverse ++ suf).drop rs.length = c :: suf := by
      have : (c :: rs).reverse ++ suf = rs.reverse ++ (c :: suf) := by simp
      rw [this, List.drop_append_of_le_length (by simp)]
      simp
    simp only [List.length_cons, extLoop, hget, hdrop]
    by_cases h1 : c = '/'
    · subst h1
      simp
    · by_cases h2 : c = '.'
      · subst h2
        simp
      · have hrw : (c :: rs).reverse ++ suf = rs.reverse ++ (c :: suf) := by simp
        rw [if_neg h1, if_neg h2, hrw, ih (c :: suf)]
        simp [List.takeWhile_cons, h1, h2]

theorem splitSlash_head (cs : List Char) :
    ∃ t, splitSlash cs = cs.takeWhile (fun c => c ≠ '/') :: t := by
  induction cs with
  | nil => exact ⟨[], by simp [splitSlash]⟩
  | cons c cs ih =>
    obtain ⟨t, ht⟩ := ih
    unfold splitSlash
    by_cases hc : c = '/'
    · exact ⟨splitSlash cs, by simp [hc]⟩
    · exact ⟨t, by simp [hc, ht, List.takeWhile_cons]⟩

theorem pathPrefix_of_absolute (path : String) (habs : path.data.head? = some '/') :
    pathPrefix path = firstPathSegment path := by
  unfold pathPrefix firstPathSegment
  cases hp : path.data with
  | nil => rw [hp] at habs; simp at habs
  | cons c rest =>
    rw [hp] at habs
    simp only [List.head?_cons, Option.some.injEq] at habs
    subst habs
    obtain ⟨t, ht⟩ := splitSlash_head rest
    simp [splitSlash, ht]

theorem fileNameOnly_eq_baseName (i : Image) : fileNameOnly i = baseName i.FileName := by
  unfold fileNameOnly baseName Ext
  have hext := extLoop_reverse i.FileName.data.reverse []
  simp only [List.reverse_reverse, List.append_nil, List.length_reverse] at hext
  simp only [hext]
  by_cases hdot : (i.FileName.data.reverse.drop
      (i.FileName.data.reverse.takeWhile (fun c => c ≠ '/' ∧ c ≠ '.')).length).head? = some '.'
  · simp only [if_pos hdot, List.length_cons, List.length_reverse, Nat.sub_sub]
  · simp only [if_neg hdot, List.length_nil, Nat.sub_zero, List.take_length]

theorem allowedMapAt_eq (t : ImageType) : allowedMapAt t = formatExtension t := by
  cases t <;> simp [allowedMapAt, allowedMap, formatExtension]

theorem base_ext_inj (a b : ImageType) (x y : List Char)
    (ha : a = ImageType.WEBP ∨ a = ImageType.JPEG ∨ a = ImageType.PNG)
    (hb : b = ImageType.WEBP ∨ b = ImageType.JPEG ∨ b = ImageType.PNG)
    (h : x ++ (formatExtension a).data = y ++ (formatExtension b).data) : a = b ∧ x = y := by
  have hr := congrArg List.reverse h
  rcases ha with rfl | rfl | rfl <;> rcases hb with rfl | rfl | rfl <;>
    simp [formatExtension] at hr <;> simp [hr]

/-! ## Request descriptor builder -/

/-- C5: when the extension of the file name is not in the allow-list in force
(`config.Allowed` when it is non-empty, the default list otherwise), `NewImage` returns a
non-nil error and leaves `FileName` empty, for every request (hence every value of the
`h`, `w`, `c`, `f` parameters) and every configuration (hence every bucket name). -/
theorem NewImage_rejects_extension_outside_allow_list (env : Env) (r : Request)
    (config : HandlerConfig) (fileName : String)
    (hext : Ext fileName ∉ effectiveAllowed config) :
    (NewImage env r config fileName).2 ≠ none ∧
      (NewImage env r config fileName).1.FileName = "" := by
  have hname : (NewImage env r config fileName).1.FileName = "" := by
    unfold NewImage
    simp only []
    have hacc : (if config.Allowed.length > 0 then config.Allowed else allowedTypes) =
        effectiveAllowed config := by
      unfold effectiveAllowed allowedTypes
      cases config.Allowed <;> simp
    rw [hacc, nameLoop_not_mem _ _ _ _ hext, (isFormatSupported_fields _ _ _).1]
    cases config.CacheTime <;> rfl
  refine ⟨?_, hname⟩
  have herr : (NewImage env r config fileName).2 =
      (if (NewImage env r config fileName).1.Bucket = "" then
        some "Bucket cannot be an empty string"
      else if (NewImage env r config fileName).1.FileName = "" then
        some "File name cannot be an empty string" else none) := rfl
  rw [herr, hname]
  by_cases hb : (NewImage env r config fileName).1.Bucket = ""
  · rw [if_pos hb]; simp
  · rw [if_neg hb]; simp

/-- Witness of C5: the file name "cat.bmp" with the default allow-list. -/
theorem NewImage_rejects_extension_outside_allow_list_witness :
    Ext "cat.bmp" ∉ effectiveAllowed photosConfig ∧
      (NewImage emptyEnv catRequest photosConfig "cat.bmp").2 ≠ none ∧
      (NewImage emptyEnv catRequest photosConfig "cat.bmp").1.FileName = "" :=
  ⟨by decide,
    NewImage_rejects_extension_outside_allow_list emptyEnv catRequest photosConfig "cat.bmp"
      (by decide)⟩

/-- C9: the image built by `NewImage` has `Height = min ph 3064` and
`Width = min pw 3064`, where `ph` (and likewise `pw`) is 0 when the `h` parameter is absent
or not parsable as a number, and the parsed value truncated to an integer when a signed
64-bit integer can hold it; in every case both dimensions are at most 3064, each is
`min c 3064` for the result `c` of `int(to.Float64(..))` on its own parameter, and an
absent parameter is read as the empty string. -/
theorem NewImage_dimensions_clamped (env : Env) (r : Request) (config : HandlerConfig)
    (fileName : String) :
    (NewImage env r config fileName).1.Height ≤ 3064 ∧
    (NewImage env r config fileName).1.Width ≤ 3064 ∧
    (NewImage env r config fileName).1.Height =
      min (floatToInt env (toFloat64 env (r.Get "h"))) 3064 ∧
    (NewImage env r config fileName).1.Width =
      min (floatToInt env (toFloat64 env (r.Get "w"))) 3064 ∧
    (∀ t : Int, env.parseFloat (r.Get "h") = some (Float64.finite t) → -(2 ^ 63) ≤ t →
      t < 2 ^ 63 → (NewImage env r config fileName).1.Height = min t 3064) ∧
    (∀ t : Int, env.parseFloat (r.Get "w") = some (Float64.finite t) → -(2 ^ 63) ≤ t →
      t < 2 ^ 63 → (NewImage env r config fileName).1.Width = min t 3064) ∧
    (env.parseFloat (r.Get "h") = none → (NewImage env r config fileName).1.Height = 0) ∧
    (env.parseFloat (r.Get "w") = none → (NewImage env r config fileName).1.Width = 0) ∧
    ((∀ kv ∈ r.Query, kv.1 ≠ "h") → env.parseFloat "" = none →
      (NewImage env r config fileName).1.Height = 0) ∧
    ((∀ kv ∈ r.Query, kv.1 ≠ "w") → env.parseFloat "" = none →
      (NewImage env r config fileName).1.Width = 0) := by
  obtain ⟨hh, hw, _⟩ := NewImage_fields env r config fileName
  have habsent : ∀ key : String, (∀ kv ∈ r.Query, kv.1 ≠ key) → r.Get key = "" := by
    intro key hk
    unfold Request.Get
    have hnone : r.Query.find? (fun kv => kv.1 == key) = none := by
      rw [List.find?_eq_none]
      intro kv hkv
      simpa using hk kv hkv
    rw [hnone]
  have hH : (NewImage env r config fileName).1.Height =
      min (floatToInt env (toFloat64 env (r.Get "h"))) 3064 := by
    rw [hh]
    split_ifs with hc
    · exact (min_eq_right (le_of_lt hc)).symm
    · exact (min_eq_left (not_lt.1 hc)).symm
  have hW : (NewImage env r config fileName).1.Width =
      min (floatToInt env (toFloat64 env (r.Get "w"))) 3064 := by
    rw [hw]
    split_ifs with hc
    · exact (min_eq_right (le_of_lt hc)).symm
    · exact (min_eq_left (not_lt.1 hc)).symm
  have hfin : ∀ (x : String) (t : Int), env.parseFloat x = some (Float64.finite t) →
      -(2 ^ 63) ≤ t → t < 2 ^ 63 → floatToInt env (toFloat64 env x) = t := by
    intro x t hx hlo hhi
    unfold toFloat64 floatToInt
    rw [hx]
    simp only []
    rw [if_pos ⟨hlo, hhi⟩]
  have hnone : ∀ x : String, env.parseFloat x = none →
      floatToInt env (toFloat64 env x) = 0 := by
    intro x hx
    unfold toFloat64 floatToInt
    rw [hx]
    simp only []
    rw [if_pos ⟨by norm_num, by norm_num⟩]
  refine ⟨?_, ?_, hH, hW, ?_, ?_, ?_, ?_, ?_, ?_⟩
  · rw [hH]; exact min_le_right _ _
  · rw [hW]; exact min_le_right _ _
  · intro t ht hlo hhi
    rw [hH, hfin _ t ht hlo hhi]
  · intro t ht hlo hhi
    rw [hW, hfin _ t ht hlo hhi]
  · intro hp
    rw [hH, hnone _ hp]; decide
  · intro hp
    rw [hW, hnone _ hp]; decide
  · intro hk hp
    rw [hH, habsent "h" hk, hnone _ hp]; decide
  · intro hk hp
    rw [hW, habsent "w" hk, hnone _ hp]; decide

/-- Witness of C9: the request `?h=5000&c=true`, whose height parses to 5000 and is
clamped to 3064 and whose width is absent and is 0. -/
theorem NewImage_dimensions_clamped_witness :
    emptyEnv.parseFloat
      (({ Path := "/photos/cat.jpg", Query := [("h", "5000"), ("c", "true")] } : Request).Get
        "h") = some (Float64.finite 5000) ∧
    (NewImage emptyEnv { Path := "/photos/cat.jpg", Query := [("h", "5000"), ("c", "true")] }
      photosConfig "cat.jpg").1.Height = min 5000 3064 ∧
    (∀ kv ∈ ({ Path := "/photos/cat.jpg", Query := [("h", "5000"), ("c", "true")] } :
      Request).Query, kv.1 ≠ "w") ∧
    emptyEnv.parseFloat "" = none ∧
    (NewImage emptyEnv { Path := "/photos/cat.jpg", Query := [("h", "5000"), ("c", "true")] }
      photosConfig "cat.jpg").1.Width = 0 :=
  ⟨by decide,
    (NewImage_dimensions_clamped emptyEnv
      { Path := "/photos/cat.jpg", Query := [("h", "5000"), ("c", "true")] }
      photosConfig "cat.jpg").2.2.2.2.1 5000 (by decide) (by decide) (by decide),
    by decide, by decide,
    (NewImage_dimensions_clamped emptyEnv
      { Path := "/photos/cat.jpg", Query := [("h", "5000"), ("c", "true")] }
      photosConfig "cat.jpg").2.2.2.2.2.2.2.2.2 (by decide) (by decide)⟩

/-- Counterexample to C9 as stated: for `h=1e30` the parameter parses to the number
1000000000000000019884624838656, which `int` cannot hold; with the conversion of an amd64
processor the height is -2^63, not `min ph 3064 = 3064`. -/
theorem NewImage_dimensions_clamped_counterexample :
    emptyEnv.parseFloat "1e30" = some (Float64.finite 1000000000000000019884624838656) ∧
    (NewImage emptyEnv { Path := "/photos/cat.jpg", Query := [("h", "1e30")] } photosConfig
      "cat.jpg").1.Height = -(2 ^ 63) ∧
    (NewImage emptyEnv { Path := "/photos/cat.jpg", Query := [("h", "1e30")] } photosConfig
      "cat.jpg").1.Height ≠ min 1000000000000000019884624838656 3064 := by
  refine ⟨by decide, by decide, by decide⟩

/-- C10: whatever order the entries of `allowedMap` are visited in, the image built by
`NewImage` has `OutputFormat` WEBP for `f = "webp"`, JPEG for `f = "jpg"`, PNG for
`f = "png"` and the default WEBP for every other value of `f`, among them the empty
string, "jpeg", "gif", ".png" and "PNG". -/
theorem NewImage_outputFormat_of_param (env : Env) (r : Request) (config : HandlerConfig)
    (fileName : String) (horder : env.mapOrder.Perm allowedMap) :
    (NewImage env r config fileName).1.OutputFormat = formatOfParam (r.Get "f") ∧
    formatOfParam "webp" = ImageType.WEBP ∧ formatOfParam "jpg" = ImageType.JPEG ∧
    formatOfParam "png" = ImageType.PNG ∧
    (∀ f : String, f ≠ "webp" → f ≠ "jpg" → f ≠ "png" → formatOfParam f = ImageType.WEBP) ∧
    formatOfParam "" = ImageType.WEBP ∧ formatOfParam "jpeg" = ImageType.WEBP ∧
    formatOfParam "gif" = ImageType.WEBP ∧ formatOfParam ".png" = ImageType.WEBP ∧
    formatOfParam "PNG" = ImageType.WEBP := by
  refine ⟨?_, by decide, by decide, by decide, ?_, by decide, by decide, by decide, by decide,
    by decide⟩
  · have hmem : ∀ vk : ImageType × String, vk ∈ env.mapOrder ↔ vk ∈ allowedMap :=
      fun vk => horder.mem_iff
    have hinit : ∀ (j : Image) (f : String), j.OutputFormat = ImageType.WEBP →
        (isFormatSupported env j f).OutputFormat = formatOfParam f := by
      intro j f hj
      unfold isFormatSupported formatOfParam
      by_cases hf : f ≠ ""
      · rw [if_pos hf]
        by_cases h1 : f = "webp"
        · rw [if_pos h1]
          refine formatLoop_unique _ _ _ _ ?_ (Or.inl hj)
          intro vk hvk hvt
          have := (hmem vk).1 hvk
          subst h1
          simp only [allowedMap, List.mem_cons, List.mem_singleton, List.not_mem_nil,
            or_false] at this
          rcases this with rfl | rfl | rfl
          · rfl
          · exact absurd hvt (by decide)
          · exact absurd hvt (by decide)
        · rw [if_neg h1]
          by_cases h2 : f = "jpg"
          · rw [if_pos h2]
            refine formatLoop_unique _ _ _ _ ?_
              (Or.inr ⟨(ImageType.JPEG, ".jpg"), (hmem _).2 (by decide), by rw [h2]; rfl⟩)
            intro vk hvk hvt
            have := (hmem vk).1 hvk
            subst h2
            simp only [allowedMap, List.mem_cons, List.mem_singleton, List.not_mem_nil,
              or_false] at this
            rcases this with rfl | rfl | rfl
            · exact absurd hvt (by decide)
            · rfl
            · exact absurd hvt (by decide)
          · rw [if_neg h2]
            by_cases h3 : f = "png"
            · rw [if_pos h3]
              refine formatLoop_unique _ _ _ _ ?_
                (Or.inr ⟨(ImageType.PNG, ".png"), (hmem _).2 (by decide), by rw [h3]; rfl⟩)
              intro vk hvk hvt
              have := (hmem vk).1 hvk
              subst h3
              simp only [allowedMap, List.mem_cons, List.mem_singleton, List.not_mem_nil,
                or_false] at this
              rcases this with rfl | rfl | rfl
              · exact absurd hvt (by decide)
              · exact absurd hvt (by decide)
              · rfl
            · rw [if_neg h3, formatLoop_none, hj]
              intro vk hvk hvt
              have := (hmem vk).1 hvk
              simp only [allowedMap, List.mem_cons, List.mem_singleton, List.not_mem_nil,
                or_false] at this
              rcases this with rfl | rfl | rfl
              · exact h1 (dot_append_inj _ _ hvt.symm)
              · exact h2 (dot_append_inj _ _ hvt.symm)
              · exact h3 (dot_append_inj _ _ hvt.symm)
      · rw [if_neg hf]
        have hf0 : f = "" := not_not.1 hf
        subst hf0
        simpa using hj
    unfold NewImage
    simp only []
    rw [(nameLoop_fields _ _ _ _).2.2.1]
    cases config.CacheTime <;> exact hinit _ _ rfl
  · intro f h1 h2 h3
    unfold formatOfParam
    rw [if_neg h1, if_neg h2, if_neg h3]

/-- Witness of C10: the entries visited in the order PNG, WEBP, JPEG and `f=jpg`. -/
theorem NewImage_outputFormat_of_param_witness :
    ({ emptyEnv with mapOrder := [(ImageType.PNG, ".png"), (ImageType.WEBP, ".webp"),
        (ImageType.JPEG, ".jpg")] } : Env).mapOrder.Perm allowedMap ∧
    (NewImage { emptyEnv with mapOrder := [(ImageType.PNG, ".png"), (ImageType.WEBP, ".webp"),
        (ImageType.JPEG, ".jpg")] } { Path := "/photos/cat.jpg", Query := [("f", "jpg")] }
      photosConfig "cat.jpg").1.OutputFormat = ImageType.JPEG :=
  ⟨by decide,
    (NewImage_outputFormat_of_param { emptyEnv with mapOrder := [(ImageType.PNG, ".png"),
        (ImageType.WEBP, ".webp"), (ImageType.JPEG, ".jpg")] }
      { Path := "/photos/cat.jpg", Query := [("f", "jpg")] } photosConfig "cat.jpg"
      (by decide)).1⟩

/-! ## Cache key -/

/-- C1: for every image and every request whose URL text `url.Parse` accepts with an
absolute path, the cache file name is `CachePath + "/" + P + "_w" + decimal(Width) + "_h" +
decimal(Height) + "_c" + ("true" or "false" for Crop) + "_" + B + E`, where `P` is the first
segment of the path of the URL parsed again, `B` is `FileName` with its final extension
removed and `E` is the extension of `OutputFormat`; when `url.Parse` rejects the text,
`getCachedFileName` panics.  The decimal text reads back as the number. -/
theorem getCachedFileName_shape (env : Env) (i : Image) (r : Request) :
    (∀ path : String, env.urlParse (env.urlString r) = .ok path →
      path.data.head? = some '/' →
      getCachedFileName env i r = Outcome.ok
        (i.CachePath ++ "/" ++ firstPathSegment path ++ "_w" ++ formatInt i.Width ++ "_h" ++
          formatInt i.Height ++ "_c" ++ (if i.Crop = true then "true" else "false") ++ "_" ++
          baseName i.FileName ++ formatExtension i.OutputFormat)) ∧
    (∀ e : String, env.urlParse (env.urlString r) = .error e →
      getCachedFileName env i r = Outcome.panic) ∧
    (∀ n : Nat, parseNat (formatInt (n : Int)).data = n) := by
  refine ⟨?_, ?_, ?_⟩
  · intro path hparse habs
    unfold getCachedFileName
    rw [hparse]
    simp only []
    rw [pathPrefix_of_absolute path habs, fileNameOnly_eq_baseName, allowedMapAt_eq]
    rfl
  · intro e hparse
    unfold getCachedFileName
    rw [hparse]
  · intro n
    unfold formatInt
    rw [if_neg (by omega)]
    simpa using parseNat_formatNat n

/-- Witness of C1: the request `/photos/cat.jpg?w=100&h=100&c=true` with `FileName`
"cat.jpg", width and height 100, crop set and the output format WEBP. -/
theorem getCachedFileName_shape_witness :
    emptyEnv.urlParse (emptyEnv.urlString catRequest) = .ok "/photos/cat.jpg" ∧
    ("/photos/cat.jpg" : String).data.head? = some '/' ∧
    catImage.FileName = "cat.jpg" ∧ catImage.Width = 100 ∧ catImage.Height = 100 ∧
    catImage.Crop = true ∧ catImage.OutputFormat = ImageType.WEBP ∧
    getCachedFileName emptyEnv catImage catRequest =
      Outcome.ok (catImage.CachePath ++ "/photos_w100_h100_ctrue_cat.webp") :=
  ⟨rfl, by decide, by decide, by decide, by decide, by decide, by decide,
    ((getCachedFileName_shape emptyEnv catImage catRequest).1 "/photos/cat.jpg" rfl
      (by decide)).trans (by decide)⟩

/-- Counterexample to C1 as stated: for the request path `//photos/cat.jpg` the URL text
parses again with host `photos` and path `/cat.jpg`, so the name starts with `cat.jpg`
and not with a first path segment of the request (neither the empty segment nor
`photos`); for the request path `//[::1/cat.jpg` parsing again fails and no name is
returned at all. -/
theorem getCachedFileName_shape_counterexample :
    getCachedFileName emptyEnv catImage
        { Path := "//photos/cat.jpg", Query := [("w", "100"), ("h", "100"), ("c", "true")] } =
      Outcome.ok "/var/cache/cat.jpg_w100_h100_ctrue_cat.webp" ∧
    getCachedFileName emptyEnv catImage { Path := "//[::1/cat.jpg", Query := [] } =
      Outcome.panic ∧
    ¬ (∀ (i : Image) (r : Request), getCachedFileName emptyEnv i r = Outcome.ok
        (i.CachePath ++ "/" ++ firstPathSegment r.Path ++ "_w" ++ formatInt i.Width ++ "_h" ++
          formatInt i.Height ++ "_c" ++ (if i.Crop = true then "true" else "false") ++ "_" ++
          baseName i.FileName ++ formatExtension i.OutputFormat)) := by
  refine ⟨by decide, by decide, ?_⟩
  intro hall
  exact absurd (hall catImage { Path := "//[::1/cat.jpg", Query := [] }) (by decide)

/-- C8: for two images with an output format among WEBP, JPEG and PNG, the same
`CachePath`, and two requests whose URL texts `url.Parse` accepts and gives the same route
prefix (element 1 of the path parsed again), both cache file names exist, and they are
equal exactly when the images agree on `Width`, `Height`, `Crop`, `OutputFormat` and the
base name (`FileName` with its final extension removed): the name is a function of these
fields, and a difference in any one of them gives a different name. -/
theorem getCachedFileName_injective (env : Env) (i j : Image) (r q : Request)
    (p1 p2 : String)
    (hr : env.urlParse (env.urlString r) = .ok p1)
    (hq : env.urlParse (env.urlString q) = .ok p2)
    (hcp : i.CachePath = j.CachePath) (hpp : pathPrefix p1 = pathPrefix p2)
    (hi : i.OutputFormat = ImageType.WEBP ∨ i.OutputFormat = ImageType.JPEG ∨
      i.OutputFormat = ImageType.PNG)
    (hj : j.OutputFormat = ImageType.WEBP ∨ j.OutputFormat = ImageType.JPEG ∨
      j.OutputFormat = ImageType.PNG) :
    (∃ n m, getCachedFileName env i r = Outcome.ok n ∧
      getCachedFileName env j q = Outcome.ok m) ∧
    (getCachedFileName env i r = getCachedFileName env j q ↔
      (i.Width = j.Width ∧ i.Height = j.Height ∧ i.Crop = j.Crop ∧
        i.OutputFormat = j.OutputFormat ∧ baseName i.FileName = baseName j.FileName)) := by
  have hi1 : getCachedFileName env i r = Outcome.ok
      (i.CachePath ++ "/" ++ pathPrefix p1 ++ "_w" ++ formatInt i.Width ++ "_h" ++
        formatInt i.Height ++ "_c" ++ formatBool i.Crop ++ "_" ++ fileNameOnly i ++
        allowedMapAt i.OutputFormat) := by
    unfold getCachedFileName
    rw [hr]
  have hj1 : getCachedFileName env j q = Outcome.ok
      (j.CachePath ++ "/" ++ pathPrefix p2 ++ "_w" ++ formatInt j.Width ++ "_h" ++
        formatInt j.Height ++ "_c" ++ formatBool j.Crop ++ "_" ++ fileNameOnly j ++
        allowedMapAt j.OutputFormat) := by
    unfold getCachedFileName
    rw [hq]
  refine ⟨⟨_, _, hi1, hj1⟩, ?_⟩
  rw [hi1, hj1]
  constructor
  · intro h
    have hd := congrArg String.data (Outcome.ok.inj h)
    simp only [String.data_append, List.append_assoc, hcp, hpp,
      allowedMapAt_eq, fileNameOnly_eq_baseName] at hd
    replace hd := List.append_cancel_left (List.append_cancel_left (List.append_cancel_left
      (List.append_cancel_left hd)))
    obtain ⟨hW, hd⟩ := append_sep_inj '_' _ _ _ _ (formatInt_no_sep _) (formatInt_no_sep _) hd
    replace hd := List.tail_eq_of_cons_eq hd
    obtain ⟨hH, hd⟩ := append_sep_inj '_' _ _ _ _ (formatInt_no_sep _) (formatInt_no_sep _) hd
    replace hd := List.tail_eq_of_cons_eq hd
    obtain ⟨hC, hd⟩ := append_sep_inj '_' _ _ _ _ (formatBool_no_sep _) (formatBool_no_sep _) hd
    obtain ⟨hF, hB⟩ := base_ext_inj _ _ _ _ hi hj hd
    exact ⟨formatInt_injective _ _ (String.ext hW), formatInt_injective _ _ (String.ext hH),
      formatBool_injective _ _ (String.ext hC), hF, String.ext hB⟩
  · rintro ⟨hW, hH, hC, hF, hB⟩
    rw [fileNameOnly_eq_baseName, fileNameOnly_eq_baseName, hcp, hpp, hW, hH, hC, hF, hB]

/-- Witness of C8: the request of scenario A against the same request with `w=5000`,
which is clamped to 3064; the two names differ. -/
theorem getCachedFileName_injective_witness :
    emptyEnv.urlParse (emptyEnv.urlString catRequest) = .ok "/photos/cat.jpg" ∧
    emptyEnv.urlParse (emptyEnv.urlString { catRequest with Query := [("w", "5000")] }) =
      .ok "/photos/cat.jpg" ∧
    catImage.CachePath = { catImage with Width := 3064 }.CachePath ∧
    (getCachedFileName emptyEnv catImage catRequest =
        getCachedFileName emptyEnv { catImage with Width := 3064 }
          { catRequest with Query := [("w", "5000")] } ↔
      (catImage.Width = { catImage with Width := 3064 }.Width ∧
        catImage.Height = { catImage with Width := 3064 }.Height ∧
        catImage.Crop = { catImage with Width := 3064 }.Crop ∧
        catImage.OutputFormat = { catImage with Width := 3064 }.OutputFormat ∧
        baseName catImage.FileName = baseName { catImage with Width := 3064 }.FileName)) :=
  ⟨rfl, rfl, by decide,
    (getCachedFileName_injective emptyEnv catImage { catImage with Width := 3064 } catRequest
      { catRequest with Query := [("w", "5000")] } "/photos/cat.jpg" "/photos/cat.jpg" rfl rfl
      (by decide) (by decide) (by decide) (by decide)).2⟩

/-- Counterexample to C8 as stated: the request paths `//x/a.jpg` and `//x/b.jpg` have
the same first path segment and are asked for one and the same image, yet the URL texts
parse again to the paths `/a.jpg` and `/b.jpg`, so the two names differ. -/
theorem getCachedFileName_injective_counterexample :
    getCachedFileName emptyEnv catImage { Path := "//x/a.jpg", Query := [] } =
      Outcome.ok "/var/cache/a.jpg_w100_h100_ctrue_cat.webp" ∧
    getCachedFileName emptyEnv catImage { Path := "//x/b.jpg", Query := [] } =
      Outcome.ok "/var/cache/b.jpg_w100_h100_ctrue_cat.webp" ∧
    ¬ (∀ (i j : Image) (r q : Request), i.CachePath = j.CachePath →
        firstPathSegment r.Path = firstPathSegment q.Path →
        (i.OutputFormat = ImageType.WEBP ∨ i.OutputFormat = ImageType.JPEG ∨
          i.OutputFormat = ImageType.PNG) →
        (j.OutputFormat = ImageType.WEBP ∨ j.OutputFormat = ImageType.JPEG ∨
          j.OutputFormat = ImageType.PNG) →
        (getCachedFileName emptyEnv i r = getCachedFileName emptyEnv j q ↔
          (i.Width = j.Width ∧ i.Height = j.Height ∧ i.Crop = j.Crop ∧
            i.OutputFormat = j.OutputFormat ∧
            baseName i.FileName = baseName j.FileName))) := by
  refine ⟨by decide, by decide, ?_⟩
  intro hall
  have h := (hall catImage catImage { Path := "//x/a.jpg", Query := [] }
    { Path := "//x/b.jpg", Query := [] } rfl (by decide) (by decide) (by decide)).2
    ⟨rfl, rfl, rfl, rfl, rfl⟩
  exact absurd h (by decide)

/-! ## Cache store -/

theorem wrapInt64_of_range (z : Int) (hlo : -(2 ^ 63) ≤ z) (hhi : z < 2 ^ 63) :
    wrapInt64 z = z := by
  unfold wrapInt64
  omega

/-- C2: for a cache time of `N` seconds with `0 < N` and `N * 10^9` representable in 64
bits, and an existing, readable cache file of age `d` nanoseconds, `getFromCache` returns
no error exactly when `N * 10^9 > d`, and then `Image` holds the bytes of the file;
otherwise it reports that the file has expired, leaves `Image` alone and spawns the
removal.  So the entry is fresh at any age below `N` seconds and stale at `N` seconds and
at any age above. -/
theorem getFromCache_fresh_iff (env : Env) (s : State) (r : Request) (name : String)
    (N d : Int)
    (hN : 0 < N) (hrep : N * 10 ^ 9 < 2 ^ 63) (hT : s.image.CacheTime = N)
    (hname : getCachedFileName env s.image r = Outcome.ok name)
    (hstat : env.stat name = .ok d)
    (hopen : env.osOpen name = none)
    (hread : (env.readAll name).2 = none) :
    ((∃ st, getFromCache env s r = Outcome.ok (st, none)) ↔ N * 10 ^ 9 > d) ∧
    (N * 10 ^ 9 > d →
      getFromCache env s r = Outcome.ok
        ({ s with
            image := { s.image with Image := (env.readAll name).1 }
            trace := s.trace ++ [Event.stat name] ++ [Event.osOpen name] ++
              [Event.readAll name] }, none)) ∧
    (¬ N * 10 ^ 9 > d →
      getFromCache env s r = Outcome.ok
        ({ s with
            trace := s.trace ++ [Event.stat name] ++ [Event.goRemoveExpiredImage name] },
          some "The file has expired")) ∧
    (∀ ε : Int, 0 < ε → d = N * 10 ^ 9 - ε →
      ∃ st, getFromCache env s r = Outcome.ok (st, none) ∧
        st.image.Image = (env.readAll name).1) ∧
    (∀ ε : Int, 0 ≤ ε → d = N * 10 ^ 9 + ε →
      ∃ st, getFromCache env s r = Outcome.ok (st, some "The file has expired") ∧
        st.image.Image = s.image.Image ∧ Event.goRemoveExpiredImage name ∈ st.trace) := by
  have hN1 : wrapInt64 N = N := wrapInt64_of_range N (by omega) (by omega)
  have hN2 : wrapInt64 (N * Second) = N * 10 ^ 9 := by
    have : N * Second = N * 10 ^ 9 := by unfold Second; norm_num
    rw [this]
    have hpos : 0 ≤ N * 10 ^ 9 := mul_nonneg (le_of_lt hN) (by norm_num)
    exact wrapInt64_of_range _ (by omega) hrep
  have hfresh : N * 10 ^ 9 > d →
      getFromCache env s r = Outcome.ok
        ({ s with
            image := { s.image with Image := (env.readAll name).1 }
            trace := s.trace ++ [Event.stat name] ++ [Event.osOpen name] ++
              [Event.readAll name] }, none) := by
    intro h
    unfold getFromCache
    simp only [hname, hstat, hT, hN1, hN2, if_pos h, hopen, hread]
  have hstale : ¬ N * 10 ^ 9 > d →
      getFromCache env s r = Outcome.ok
        ({ s with
            trace := s.trace ++ [Event.stat name] ++ [Event.goRemoveExpiredImage name] },
          some "The file has expired") := by
    intro h
    unfold getFromCache
    simp only [hname, hstat, hT, hN1, hN2, if_neg h]
  refine ⟨?_, hfresh, hstale, ?_, ?_⟩
  · constructor
    · rintro ⟨st, h⟩
      by_contra hc
      rw [hstale hc] at h
      simp at h
    · intro h
      exact ⟨_, hfresh h⟩
  · intro ε hε hd
    exact ⟨_, hfresh (by omega), rfl⟩
  · intro ε hε hd
    exact ⟨_, hstale (by omega), rfl, by simp⟩

/-- Witness of C2: a cache time of one week and a cache file that is one second old. -/
theorem getFromCache_fresh_iff_witness :
    getCachedFileName (agedEnv 1000000000) (startState catImage).image catRequest =
      Outcome.ok catCacheName ∧
    ((∃ st, getFromCache (agedEnv 1000000000) (startState catImage) catRequest =
        Outcome.ok (st, none)) ↔ (604800 : Int) * 10 ^ 9 > 1000000000) ∧
    getFromCache (agedEnv 1000000000) (startState catImage) catRequest = Outcome.ok
      ({ startState catImage with
          image := { (startState catImage).image with Image := [1, 2, 3] }
          trace := [Event.stat catCacheName, Event.osOpen catCacheName,
            Event.readAll catCacheName] }, none) :=
  ⟨by decide,
    (getFromCache_fresh_iff (agedEnv 1000000000) (startState catImage) catRequest catCacheName
      604800 1000000000 (by decide) (by decide) (by decide) (by decide) rfl (by decide)
      (by decide)).1,
    (getFromCache_fresh_iff (agedEnv 1000000000) (startState catImage) catRequest catCacheName
      604800 1000000000 (by decide) (by decide) (by decide) (by decide) rfl (by decide)
      (by decide)).2.1 (by decide)⟩

/-- C3: with a cache time of 0 the freshness test of `getFromCache` is `0 > age`, so an
existing, readable cache file of any age `d ≥ 0` is reported as expired and its removal is
spawned; `getImage` then serves the bytes of the origin (9, 9), not those of the cache
file (1, 2, 3). -/
theorem getFromCache_zero_cache_time_expired (d : Nat) :
    getFromCache (agedEnv d) (startState { catImage with CacheTime := 0 }) catRequest =
      Outcome.ok
        ({ startState { catImage with CacheTime := 0 } with
            trace := [Event.stat catCacheName, Event.goRemoveExpiredImage catCacheName] },
          some "The file has expired") ∧
    ∃ s, getImage (agedEnv d) (startState { catImage with CacheTime := 0 }) catRequest
        "AK" "SK" = Outcome.ok s ∧
      s.image.Image = [9, 9] ∧ s.w.body = [[9, 9]] ∧
      Event.goRemoveExpiredImage catCacheName ∈ s.trace := by
  have hname : getCachedFileName (agedEnv d) (startState { catImage with CacheTime := 0 }).image
      catRequest = Outcome.ok catCacheName :=
    (rfl : _ = getCachedFileName emptyEnv { catImage with CacheTime := 0 } catRequest).trans
      (by decide)
  have hzero : wrapInt64 (wrapInt64 0 * Second) = 0 := by decide
  have hnot : ¬ (0 : Int) > (d : Int) := by omega
  have hget : getFromCache (agedEnv d) (startState { catImage with CacheTime := 0 })
      catRequest =
      Outcome.ok ({ startState { catImage with CacheTime := 0 } with
          trace := [Event.stat catCacheName, Event.goRemoveExpiredImage catCacheName] },
        some "The file has expired") := by
    unfold getFromCache
    rw [hname]
    simp only [startState, agedEnv, hzero, if_neg hnot, List.nil_append,
      List.singleton_append]
  refine ⟨hget, ?_⟩
  unfold getImage
  have hgt : (startState { catImage with CacheTime := 0 }).image.CacheTime > -1 := by decide
  rw [if_pos hgt, hget]
  exact ⟨_, rfl, rfl, rfl, List.mem_cons_of_mem _ (List.mem_cons_self _ _)⟩

/-- C4: with the cache time -1 and an origin that answers 200, `getImage` does not look
the cache file up, but it does spawn `writeCache` for it with the fetched bytes. -/
theorem getImage_negative_cache_time_writes_cache :
    ∃ s, getImage (agedEnv 0) (startState { catImage with CacheTime := -1 }) catRequest
        "AK" "SK" = Outcome.ok s ∧
      Event.stat catCacheName ∉ s.trace ∧
      Event.goWriteCache catCacheName [9, 9] ∈ s.trace :=
  ⟨_, rfl, by decide, by decide⟩

/-- C6: on a cache hit served by the route closure, `Write` is called twice with the
image bytes, once by `getImage` and once by the closure, so six bytes are written
while `Content-Length` is "3"; likewise, when the origin answers 404 and the fallback
image of two bytes is served with status 404, four bytes are written while
`Content-Length` is "2". -/
theorem handle_cache_hit_writes_body_twice :
    (∃ s, handle (agedEnv 1000000000) none photosConfig catRequest "cat.jpg" = Outcome.ok s ∧
      s.image.Image = [1, 2, 3] ∧
      s.w.body = [[1, 2, 3], [1, 2, 3]] ∧
      s.w.body.flatten.length = 6 ∧
      headerGet s.w.header "Content-Length" = "3") ∧
    (∃ s, handle fallbackEnv none { photosConfig with ErrorImage := "/var/error.png" }
        catRequest "cat.jpg" = Outcome.ok s ∧
      s.image.Image = [7, 7] ∧
      s.w.status = [404] ∧
      s.w.body = [[7, 7], [7, 7]] ∧
      s.w.body.flatten.length = 4 ∧
      headerGet s.w.header "Content-Length" = "2") :=
  ⟨⟨_, rfl, by decide, by decide, by decide, by decide⟩,
    ⟨_, rfl, by decide, by decide, by decide, by decide, by decide⟩⟩

/-- A file name with a malformed percent escape makes `http.NewRequest` fail, and
`getImageFromS3` panics on the nil request before any call to the origin. -/
theorem getImageFromS3_bad_escape_panics :
    getImageFromS3 (agedEnv 0) (startState { catImage with FileName := "cat%zz.jpg" })
      "AK" "SK" = Outcome.panic := by
  decide

/-- C7: when `Do` returns an error and no response, `getImageFromS3` reads
`resp.StatusCode` of the nil response and panics; the route closure panics with it
and never reaches the fallback image. -/
theorem getImageFromS3_transport_failure_panics :
    emptyEnv.urlParse "https://bucket.s3.amazonaws.com/img/cat.jpg" = .ok "/img/cat.jpg" ∧
    emptyEnv.httpDo "https://bucket.s3.amazonaws.com/img/cat.jpg" "AK" "SK" =
      (none, some "dial tcp: no route to host") ∧
    getImageFromS3 emptyEnv (startState catImage) "AK" "SK" = Outcome.panic ∧
    handle emptyEnv none photosConfig catRequest "cat.jpg" = Outcome.panic := by
  refine ⟨rfl, rfl, by decide, by decide⟩

end S3ImageServer
